import Mathlib

/-!
Verification development for the LuaASM translator (src/compile.py).

The translator is a line classifier that builds a mutable program model
(class LuaASMParser) and a generator (generate_code) serializing that model.
We embed the program shallowly: Python strings become `List Char`, the
mutable parser object becomes an explicit `ParserState` threaded through a
per-line step function, and `raise SyntaxError` becomes `Except SynErr`.

Modelling conventions, matched against the source:
* `str.strip()` is modelled over the ASCII whitespace characters
  (space, tab, newline, carriage return, vertical tab, form feed); the
  claims only involve ASCII text.
* `str.splitlines()` is modelled over Python's line-boundary characters.
* the regular expressions in compile.py are compiled by hand into
  deterministic functions; greedy subpatterns with backtracking
  (such as the dot-star groups) are modelled by trying the longest
  capture first (`splitsDesc`).  Python's word class and digit class are
  modelled over ASCII, and `$` is modelled as end-of-string or a position
  just before a final newline, exactly as in Python's `re` without flags.
-/

abbrev Line := List Char

/-- Convert a Lean string literal to the `List Char` representation. -/
def str (s : String) : List Char := s.toList

/-- ASCII whitespace stripped by Python's `str.strip()`. -/
def isPyWs (c : Char) : Bool :=
  c = ' ' || c = '\t' || c = '\n' || c = '\r' || c = '\x0b' || c = '\x0c'

/-- Right strip: drop trailing whitespace. -/
def rstripPy (l : List Char) : List Char :=
  (l.reverse.dropWhile isPyWs).reverse

/-- Model of Python `str.strip()`: drop leading and trailing whitespace. -/
def pystrip (l : List Char) : List Char :=
  rstripPy (l.dropWhile isPyWs)

/-- Line-boundary characters of Python `str.splitlines()`. -/
def isLineBreak (c : Char) : Bool :=
  c = '\n' || c = '\r' || c = '\x0b' || c = '\x0c' || c = '\x1c' ||
  c = '\x1d' || c = '\x1e' || c = '\x85' || c = '\u2028' || c = '\u2029'

/-- Worker for `splitlinesPy`; `acc` holds the current line reversed. -/
def splitlinesGo : List Char → List Char → List (List Char)
  | acc, [] => if acc = [] then [] else [acc.reverse]
  | acc, '\r' :: '\n' :: cs => acc.reverse :: splitlinesGo [] cs
  | acc, c :: cs =>
    if isLineBreak c then acc.reverse :: splitlinesGo [] cs
    else splitlinesGo (c :: acc) cs

/-- Model of Python `str.splitlines()` (no trailing empty line, CRLF merged). -/
def splitlinesPy (l : List Char) : List (List Char) :=
  splitlinesGo [] l

/-- Model of Python `str.split(",")` (worker): split at every comma. -/
def splitCommaGo : List Char → List Char → List (List Char)
  | acc, [] => [acc.reverse]
  | acc, c :: cs =>
    if c = ',' then acc.reverse :: splitCommaGo [] cs
    else splitCommaGo (c :: acc) cs

/-- Model of Python `str.split(",")`. -/
def splitComma (l : List Char) : List (List Char) :=
  splitCommaGo [] l

/-- Model of Python `str.lower()` (ASCII). -/
def lowerPy (l : List Char) : List Char :=
  l.map Char.toLower

/-- ASCII word character, the model of the regex class w. -/
def isWordChar (c : Char) : Bool :=
  c.isAlphanum || c = '_'

/-- ASCII hexadecimal digit, the model of the regex class [a-fA-F0-9]. -/
def isHexPy (c : Char) : Bool :=
  c.isDigit || ('a' ≤ c && c ≤ 'f') || ('A' ≤ c && c ≤ 'F')

/-- Match a literal pattern at the start of the input, returning the rest. -/
def afterLit : List Char → List Char → Option (List Char)
  | [], l => some l
  | _ :: _, [] => none
  | p :: ps, c :: cs => if p = c then afterLit ps cs else none

/-- All decompositions of a list into prefix and suffix, longest prefix
first.  Trying them in this order models a greedy dot-star group with
backtracking. -/
def splitsDesc (r : List Char) : List (List Char × List Char) :=
  ((List.range (r.length + 1)).reverse).map (fun i => (r.take i, r.drop i))

/-- Tail of the function-call regex: the model of dot-star close-paren
followed by the end anchor, applied after the opening parenthesis.  The
dot matches anything except a newline; the anchor matches at the end of
the string or just before a final newline, as in Python `re`. -/
def tailMatches (m : List Char) : Bool :=
  match m.reverse with
  | ')' :: mid => mid.all (fun c => !(c = '\n'))
  | '\n' :: ')' :: mid => mid.all (fun c => !(c = '\n'))
  | _ => false

/-- Model of `re.match` for the function-call pattern: a nonempty word-char
run, an opening parenthesis, anything up to a closing parenthesis at the
end of the line (compile.py line 41). -/
def matchesFuncCall (l : Line) : Bool :=
  match l.dropWhile isWordChar with
  | '(' :: rest => !(l.takeWhile isWordChar).isEmpty && tailMatches rest
  | _ => false

/-- Model of the single-import pattern `import (w+) from (w+)`
(compile.py line 49); returns the two captured groups. -/
def singleImportMatch (l : Line) : Option (Line × Line) :=
  match afterLit (str "import ") l with
  | none => none
  | some r =>
    let name := r.takeWhile isWordChar
    if name.isEmpty then none else
    match afterLit (str " from ") (r.dropWhile isWordChar) with
    | none => none
    | some r2 =>
      let m := r2.takeWhile isWordChar
      if m.isEmpty then none else some (name, m)

/-- Model of the multi-import pattern `import [(.+)] from (w+)`
(compile.py line 50).  The dot-plus group is greedy, so the longest
newline-free capture whose continuation matches wins. -/
def multiImportMatch (l : Line) : Option (Line × Line) :=
  match afterLit (str "import [") l with
  | none => none
  | some r =>
    (splitsDesc r).findSome? fun gi =>
      if gi.1.isEmpty then none
      else if gi.1.any (fun c => c = '\n') then none
      else match afterLit (str "] from ") gi.2 with
        | none => none
        | some r2 =>
          let m := r2.takeWhile isWordChar
          if m.isEmpty then none else some (gi.1, m)

/-- Model of the local-import pattern `local (w+) = import (w+) from (w+)`
(compile.py line 51); returns the three captured groups. -/
def localImportMatch (l : Line) : Option (Line × Line × Line) :=
  match afterLit (str "local ") l with
  | none => none
  | some r =>
    let x := r.takeWhile isWordChar
    if x.isEmpty then none else
    match afterLit (str " = import ") (r.dropWhile isWordChar) with
    | none => none
    | some r2 =>
      let f := r2.takeWhile isWordChar
      if f.isEmpty then none else
      match afterLit (str " from ") (r2.dropWhile isWordChar) with
      | none => none
      | some r3 =>
        let m := r3.takeWhile isWordChar
        if m.isEmpty then none else some (x, f, m)

/-- Model of the architecture pattern (compile.py line 71): the bracketed
text after the arch marker, greedy up to a closing bracket. -/
def archMatch (l : Line) : Option Line :=
  match afterLit (str "#!arch[") l with
  | none => none
  | some r =>
    (splitsDesc r).findSome? fun gi =>
      if gi.1.isEmpty then none
      else if gi.1.any (fun c => c = '\n') then none
      else match gi.2 with
        | ']' :: _ => some gi.1
        | _ => none

/-- Directive names accepted by the layout-directive pattern. -/
inductive DirName where
  | start
  | pad
  | sign
deriving DecidableEq, Repr

/-- Decimal alternative of the directive value: a nonempty digit run
followed immediately by close-paren close-bracket. -/
def decimalValue (r : Line) : Option Line :=
  let d := r.takeWhile Char.isDigit
  if d.isEmpty then none
  else match afterLit (str ")]") (r.dropWhile Char.isDigit) with
    | some _ => some d
    | none => none

/-- Hexadecimal alternative of the directive value: `0x`, a nonempty hex
run, then close-paren close-bracket. -/
def hexValue (r : Line) : Option Line :=
  match afterLit (str "0x") r with
  | none => none
  | some r2 =>
    let h := r2.takeWhile isHexPy
    if h.isEmpty then none
    else match afterLit (str ")]") (r2.dropWhile isHexPy) with
      | some _ => some (str "0x" ++ h)
      | none => none

/-- Value group of the directive pattern: hex alternative first, then
decimal, as in the regex alternation (compile.py line 87). -/
def directiveValue (r : Line) : Option Line :=
  match hexValue r with
  | some v => some v
  | none => decimalValue r

/-- Model of the layout-directive pattern (compile.py line 87): one of the
three literal names, a parenthesized numeral, and the closing bracket;
anything may trail after the closing bracket. -/
def directiveMatch (l : Line) : Option (DirName × Line) :=
  match afterLit (str "#![") l with
  | none => none
  | some r =>
    match afterLit (str "start(") r with
    | some r2 => (directiveValue r2).map (fun v => (DirName.start, v))
    | none =>
      match afterLit (str "pad(") r with
      | some r2 => (directiveValue r2).map (fun v => (DirName.pad, v))
      | none =>
        match afterLit (str "sign(") r with
        | some r2 => (directiveValue r2).map (fun v => (DirName.sign, v))
        | none => none

/-- Model of the function-definition pattern `function (w+)((.*))`
(compile.py line 96): name and the greedy parameter-list capture. -/
def funcDefMatch (l : Line) : Option (Line × Line) :=
  match afterLit (str "function ") l with
  | none => none
  | some r =>
    let name := r.takeWhile isWordChar
    if name.isEmpty then none else
    match r.dropWhile isWordChar with
    | '(' :: rest =>
      (splitsDesc rest).findSome? fun gi =>
        if gi.1.any (fun c => c = '\n') then none
        else match gi.2 with
          | ')' :: _ => some (name, gi.1)
          | _ => none
    | _ => none

/-- Record held in `self.functions` / `self.current_function`:
the dict with keys name, params, body (compile.py line 100). -/
structure FunctionDef where
  name : Line
  params : List Line
  body : List Line
deriving DecidableEq, Repr

/-- The SyntaxError raised by each detailed rule, carrying the offending
line (compile.py lines 68, 75, 84, 93, 102). -/
inductive SynErr where
  | invalidImport (l : Line)
  | invalidArch (l : Line)
  | invalidAsm (l : Line)
  | invalidDirective (l : Line)
  | invalidFunction (l : Line)
deriving DecidableEq, Repr

/-- The mutable state of LuaASMParser (compile.py lines 14-22).  The
`directives` dict with its three fixed keys start, pad, sign becomes the
three optional fields `dir_start`, `dir_pad`, `dir_sign`; the dicts
`functions` and `imports` become insertion-ordered association lists. -/
structure ParserState where
  architecture : Option Line
  dir_pad : Option Line
  dir_sign : Option Line
  dir_start : Option Line
  functions : List (Line × FunctionDef)
  current_function : Option FunctionDef
  code_outside_functions : List Line
  imports : List (Line × Line)
  inline_asm : List Line
deriving DecidableEq, Repr

/-- The freshly constructed parser (compile.py __init__). -/
def initState : ParserState :=
  { architecture := none
    dir_pad := none
    dir_sign := none
    dir_start := none
    functions := []
    current_function := none
    code_outside_functions := []
    imports := []
    inline_asm := [] }

/-- Assignment into a Python dict modelled as an association list: an
existing key keeps its position and gets the new value, a new key is
appended (insertion order preserved, last write wins). -/
def assocSet {β : Type} (l : List (Line × β)) (k : Line) (v : β) :
    List (Line × β) :=
  if l.any (fun p => p.1 = k) then
    l.map (fun p => if p.1 = k then (k, v) else p)
  else l ++ [(k, v)]

/-- Model of LuaASMParser._parse_import_definition (compile.py 48-68):
the three patterns are tried in order; on failure a SyntaxError is
raised with the line. -/
def parse_import_definition (s : ParserState) (l : Line) :
    Except SynErr ParserState :=
  match singleImportMatch l with
  | some (f, m) => .ok { s with imports := assocSet s.imports f m }
  | none =>
    match multiImportMatch l with
    | some (g1, m) =>
      let names := (splitComma g1).map pystrip
      .ok { s with imports := names.foldl (fun imp n => assocSet imp n m) s.imports }
    | none =>
      match localImportMatch l with
      | some (x, f, m) =>
        .ok { s with imports := assocSet s.imports x (m ++ '.' :: f) }
      | none => .error (.invalidImport l)

/-- Model of LuaASMParser._parse_architecture (compile.py 70-75). -/
def parse_architecture (s : ParserState) (l : Line) :
    Except SynErr ParserState :=
  match archMatch l with
  | some a => .ok { s with architecture := some a }
  | none => .error (.invalidArch l)

/-- Model of LuaASMParser._parse_inline_asm (compile.py 77-84): when the
line has the asm envelope, the slice dropping the first four and the last
character is stripped and appended to inline_asm; otherwise SyntaxError. -/
def parse_inline_asm (s : ParserState) (l : Line) :
    Except SynErr ParserState :=
  if List.isPrefixOf (str "asm(") l && List.isSuffixOf (str ")") l then
    .ok { s with inline_asm := s.inline_asm ++ [pystrip ((l.drop 4).dropLast)] }
  else .error (.invalidAsm l)

/-- Model of LuaASMParser._parse_directive (compile.py 86-93). -/
def parse_directive (s : ParserState) (l : Line) :
    Except SynErr ParserState :=
  match directiveMatch l with
  | some (DirName.start, v) => .ok { s with dir_start := some v }
  | some (DirName.pad, v) => .ok { s with dir_pad := some v }
  | some (DirName.sign, v) => .ok { s with dir_sign := some v }
  | none => .error (.invalidDirective l)

/-- Model of LuaASMParser._parse_function_definition (compile.py 95-102):
the captured parameter text is comma-split and stripped when nonempty,
and the open function slot is overwritten. -/
def parse_function_definition (s : ParserState) (l : Line) :
    Except SynErr ParserState :=
  match funcDefMatch l with
  | some (name, g2) =>
    let params := if g2.isEmpty then [] else (splitComma g2).map pystrip
    .ok { s with current_function := some ⟨name, params, []⟩ }
  | none => .error (.invalidFunction l)

/-- Model of LuaASMParser._end_function_definition (compile.py 104-107):
move the open function into the table keyed by its name; a terminator
with no open function is a no-op. -/
def end_function_definition (s : ParserState) : ParserState :=
  match s.current_function with
  | some f =>
    { s with functions := assocSet s.functions f.name f
             current_function := none }
  | none => s

/-- Model of LuaASMParser._parse_function_call (compile.py 109-114). -/
def parse_function_call (s : ParserState) (l : Line) : ParserState :=
  match s.current_function with
  | some f =>
    { s with current_function := some ⟨f.name, f.params, f.body ++ [pystrip l]⟩ }
  | none =>
    { s with code_outside_functions := s.code_outside_functions ++ [pystrip l] }

/-- Model of LuaASMParser._parse_executable_code (compile.py 116-117):
the line is appended to code_outside_functions unconditionally. -/
def parse_executable_code (s : ParserState) (l : Line) : ParserState :=
  { s with code_outside_functions := s.code_outside_functions ++ [pystrip l] }

/-- Classification of one stripped line by the fixed chain of conditions
in LuaASMParser.parse (compile.py 31-46), first match wins. -/
inductive LineClass where
  | importLine
  | archLine
  | directiveLine
  | functionLine
  | endLine
  | callLine
  | asmLine
  | execLine
deriving DecidableEq, Repr

/-- The condition chain of LuaASMParser.parse (compile.py 31-46). -/
def classify (l : Line) : LineClass :=
  if List.isPrefixOf (str "import") l then .importLine
  else if List.isPrefixOf (str "#!arch[") l then .archLine
  else if List.isPrefixOf (str "#![") l then .directiveLine
  else if List.isPrefixOf (str "function") l then .functionLine
  else if l = str "end" then .endLine
  else if matchesFuncCall l then .callLine
  else if List.isPrefixOf (str "asm(") l && List.isSuffixOf (str ")") l then .asmLine
  else .execLine

/-- One iteration of the parse loop on an already stripped, nonempty
line: dispatch to the handler selected by the condition chain. -/
def processLine (s : ParserState) (l : Line) : Except SynErr ParserState :=
  match classify l with
  | .importLine => parse_import_definition s l
  | .archLine => parse_architecture s l
  | .directiveLine => parse_directive s l
  | .functionLine => parse_function_definition s l
  | .endLine => .ok (end_function_definition s)
  | .callLine => .ok (parse_function_call s l)
  | .asmLine => parse_inline_asm s l
  | .execLine => .ok (parse_executable_code s l)

/-- The parse loop of LuaASMParser.parse over the split lines: strip each
line, skip blanks, dispatch, abort on the first SyntaxError. -/
def parseLines : ParserState → List Line → Except SynErr ParserState
  | s, [] => .ok s
  | s, l :: ls =>
    if pystrip l = [] then parseLines s ls
    else
      match processLine s (pystrip l) with
      | .error e => .error e
      | .ok s' => parseLines s' ls

/-- Model of LuaASMParser.parse (compile.py 24-46): strip the source,
split it into lines, and run the loop from the fresh state. -/
def parse (code : Line) : Except SynErr ParserState :=
  parseLines initState (splitlinesPy (pystrip code))

/-- Bit-width line selected case-insensitively from the architecture tag
(compile.py 122-129): x86 and any unknown tag give 32, x64 gives 64,
x16 gives 16. -/
def bitsLine (a : Line) : Line :=
  if lowerPy a = str "x86" then str "BITS 32"
  else if lowerPy a = str "x64" then str "BITS 64"
  else if lowerPy a = str "x16" then str "BITS 16"
  else str "BITS 32"

/-- Bit-width header section (compile.py 121-131): present only when the
architecture is set to a truthy (nonempty) value. -/
def bitsHeader (s : ParserState) : List Line :=
  match s.architecture with
  | some a => if a = [] then [] else [bitsLine a]
  | none => []

/-- Origin section (compile.py 133-134): present when directives start is
truthy. -/
def orgLines (s : ParserState) : List Line :=
  match s.dir_start with
  | some v => if v = [] then [] else [str "ORG " ++ v]
  | none => []

/-- The constant entry scaffold (compile.py 136-142). -/
def entryScaffold : List Line :=
  [str "_start:", str "  push 2", str "  push 3", str "  push 5",
   str "  call add", str "  add esp, 12"]

/-- Free statements emitted indented in order (compile.py 144-145). -/
def freeSection (s : ParserState) : List Line :=
  s.code_outside_functions.map (fun l => str "  " ++ l)

/-- Function bodies (compile.py 147-152): for each stored function, its
name as a label and the fixed four instruction lines; the recorded
parameters and body are not consulted. -/
def funcSection : List (Line × FunctionDef) → List Line
  | [] => []
  | p :: rest =>
    (p.2.name ++ str ":") ::
    str "  mov eax, [esp + 4]" ::
    str "  add eax, [esp + 8]" ::
    str "  add eax, [esp + 12]" ::
    str "  ret" :: funcSection rest

/-- Padding trailer (compile.py 157-159). -/
def padLines (s : ParserState) : List Line :=
  match s.dir_pad with
  | some v => if v = [] then [] else [str "  times " ++ v ++ str " - ($ - $$) db 0"]
  | none => []

/-- Signature trailer (compile.py 161-162). -/
def signLines (s : ParserState) : List Line :=
  match s.dir_sign with
  | some v => if v = [] then [] else [str "  dw " ++ v ++ str "  ; Signature"]
  | none => []

/-- All output lines appended outside the inline-assembly loop, in the
order generate_code appends them. -/
def baseOutput (s : ParserState) : List Line :=
  bitsHeader s ++ orgLines s ++ entryScaffold ++ freeSection s ++
  funcSection s.functions ++ padLines s ++ signLines s

/-- Measure for the inline-assembly loop of generate_code. -/
def sumLen : List Line → Nat
  | [] => 0
  | l :: q => l.length + 1 + sumLen q

theorem sumLen_append (q r : List Line) :
    sumLen (q ++ r) = sumLen q + sumLen r := by
  induction q with
  | nil => simp [sumLen]
  | cons a t ih => simp [sumLen, ih]; omega

theorem length_dropWhile_le' (p : Char → Bool) (m : List Char) :
    (m.dropWhile p).length ≤ m.length := by
  induction m with
  | nil => simp
  | cons a t ih =>
    by_cases hp : p a <;> simp [List.dropWhile, hp] <;> omega

theorem length_pystrip_le (l : List Char) :
    (pystrip l).length ≤ l.length := by
  unfold pystrip rstripPy
  calc ((l.dropWhile isPyWs).reverse.dropWhile isPyWs).reverse.length
      = ((l.dropWhile isPyWs).reverse.dropWhile isPyWs).length := by
        simp
    _ ≤ (l.dropWhile isPyWs).reverse.length := length_dropWhile_le' _ _
    _ = (l.dropWhile isPyWs).length := by simp
    _ ≤ l.length := length_dropWhile_le' _ _

/-- Key step bound for the inline-assembly loop: an entry with the asm
envelope is replaced by a fragment at least five characters shorter, so
the total measure strictly decreases. -/
theorem asmLoop_dec (a : Line) (rest : List Line)
    (h : (List.isPrefixOf (str "asm(") a && List.isSuffixOf (str ")") a) = true) :
    sumLen (rest ++ [pystrip ((a.drop 4).dropLast)]) < sumLen (a :: rest) := by
  rw [Bool.and_eq_true] at h
  have h4 : (str "asm(").length ≤ a.length :=
    (List.isPrefixOf_iff_prefix.mp h.1).length_le
  have h5 : (str "asm(").length = 4 := rfl
  have h6 : (pystrip ((a.drop 4).dropLast)).length ≤ ((a.drop 4).dropLast).length :=
    length_pystrip_le _
  rw [sumLen_append]
  simp only [sumLen, List.length_dropLast, List.length_drop] at *
  omega

/-- The inline-assembly loop of generate_code (compile.py 154-155): Python
iterates the list by index while _parse_inline_asm appends the stripped
fragment back to the same list, so the pending entries form a queue; an
entry with the asm envelope enqueues its stripped remainder, any other
entry raises the SyntaxError of _parse_inline_asm. -/
def asmLoop : List Line → Except SynErr Unit
  | [] => .ok ()
  | a :: rest =>
    if h : (List.isPrefixOf (str "asm(") a && List.isSuffixOf (str ")") a) = true then
      asmLoop (rest ++ [pystrip ((a.drop 4).dropLast)])
    else .error (.invalidAsm a)
termination_by q => sumLen q
decreasing_by
  exact asmLoop_dec _ _ h

/-- Newline join of the output lines (compile.py 164). -/
def joinNL (ls : List Line) : Line :=
  List.intercalate (str "\n") ls

/-- Model of LuaASMParser.generate_code (compile.py 119-164).  The
inline-assembly loop raises whenever it runs at all (every queue chain
ends in an entry without the asm envelope, see `asmLoop_ok`), so a
successful run performs no loop iteration and returns exactly the join
of `baseOutput`; in Python the loop would otherwise also append the None
results of _parse_inline_asm to the output, but that point is never
reached on the success path. -/
def generate_code (s : ParserState) : Except SynErr Line :=
  match asmLoop s.inline_asm with
  | .error e => .error e
  | .ok _ => .ok (joinNL (baseOutput s))

/-- A nonempty queue never lets the inline-assembly loop finish without
raising: every chain of envelope strippings ends in an entry without the
asm envelope. -/
theorem asmLoop_cons_ne (u : Unit) :
    ∀ (n : Nat) (a : Line) (rest : List Line), sumLen (a :: rest) ≤ n →
      asmLoop (a :: rest) ≠ Except.ok u := by
  intro n
  induction n with
  | zero =>
    intro a rest hle
    simp [sumLen] at hle
  | succ n ih =>
    intro a rest hle h
    unfold asmLoop at h
    split at h
    · rename_i henv
      rcases hq : rest ++ [pystrip ((a.drop 4).dropLast)] with _ | ⟨b, q2⟩
      · exact absurd hq (by simp)
      · rw [hq] at h
        refine ih b q2 ?_ h
        have hdec := asmLoop_dec a rest henv
        rw [hq] at hdec
        omega
    · exact Except.noConfusion h

/-- The inline-assembly loop can only finish without raising when it had
nothing to process. -/
theorem asmLoop_ok (q : List Line) (u : Unit) (h : asmLoop q = .ok u) :
    q = [] := by
  cases q with
  | nil => rfl
  | cons a rest =>
    exact absurd h (asmLoop_cons_ne u (sumLen (a :: rest)) a rest le_rfl)

/-- Dropping a while-prefix only removes characters. -/
theorem mem_of_mem_dropWhile (p : Char → Bool) :
    ∀ (m : List Char) (c : Char), c ∈ m.dropWhile p → c ∈ m := by
  intro m
  induction m with
  | nil => intro c hc; simpa using hc
  | cons a t ih =>
    intro c hc
    by_cases hp : p a
    · rw [List.dropWhile_cons, if_pos hp] at hc
      exact List.mem_cons_of_mem _ (ih c hc)
    · rw [List.dropWhile_cons, if_neg hp] at hc
      exact hc

/-- Stripping only removes characters. -/
theorem mem_of_mem_pystrip {c : Char} {l : List Char} (h : c ∈ pystrip l) :
    c ∈ l := by
  unfold pystrip rstripPy at h
  rw [List.mem_reverse] at h
  have h2 := mem_of_mem_dropWhile _ _ _ h
  rw [List.mem_reverse] at h2
  exact mem_of_mem_dropWhile _ _ _ h2

set_option maxHeartbeats 1000000 in
/-- Every line produced by the splitlines worker is free of line-boundary
characters, provided the accumulator is. -/
theorem splitlinesGo_no_break :
    ∀ (acc cs : List Char), (∀ c ∈ acc, isLineBreak c = false) →
      ∀ l ∈ splitlinesGo acc cs, ∀ c ∈ l, isLineBreak c = false := by
  intro acc cs
  induction acc, cs using splitlinesGo.induct with
  | case1 =>
    intro hacc l hl
    rw [splitlinesGo.eq_1] at hl
    simp at hl
  | case2 acc hne =>
    intro hacc l hl c hc
    rw [splitlinesGo.eq_1, if_neg hne] at hl
    simp at hl
    subst hl
    exact hacc c (List.mem_reverse.mp hc)
  | case3 acc cs ih =>
    intro hacc l hl c hc
    rw [splitlinesGo.eq_2] at hl
    rcases List.mem_cons.mp hl with rfl | hl2
    · exact hacc c (List.mem_reverse.mp hc)
    · exact ih (by simp) l hl2 c hc
  | case4 acc c cs hne hbreak ih =>
    intro hacc l hl c2 hc2
    rw [splitlinesGo.eq_3 _ _ _ hne, if_pos hbreak] at hl
    rcases List.mem_cons.mp hl with rfl | hl2
    · exact hacc c2 (List.mem_reverse.mp hc2)
    · exact ih (by simp) l hl2 c2 hc2
  | case5 acc c cs hne hnb ih =>
    intro hacc l hl c2 hc2
    rw [splitlinesGo.eq_3 _ _ _ hne, if_neg hnb] at hl
    refine ih ?_ l hl c2 hc2
    intro d hd
    rcases List.mem_cons.mp hd with rfl | hd2
    · exact Bool.eq_false_iff.mpr hnb
    · exact hacc d hd2

/-- Lines of `splitlinesPy` contain no newline character. -/
theorem splitlinesPy_no_newline (code : List Char) :
    ∀ l ∈ splitlinesPy code, ∀ c ∈ l, ¬(c = '\n') := by
  intro l hl c hc heq
  have := splitlinesGo_no_break [] code (by simp) l hl c hc
  subst heq
  simp [isLineBreak] at this

/-- The dot-star close-paren tail accepts any newline-free text followed
by the closing parenthesis. -/
theorem tailMatches_concat (mid : List Char)
    (h : ∀ c ∈ mid, ¬(c = '\n')) : tailMatches (mid ++ [')']) = true := by
  have hk : tailMatches (mid ++ [')']) =
      (mid.reverse.all fun c => !(c = '\n')) := by
    unfold tailMatches
    rw [List.reverse_append]
    exact rfl
  rw [hk, List.all_eq_true]
  intro c hc
  have := h c (List.mem_reverse.mp hc)
  simpa using this

/-- Any newline-free line with the asm envelope also matches the
function-call pattern: the word run asm, the opening parenthesis, and a
dot-star tail ending at the final closing parenthesis. -/
theorem asmEnvelope_matchesFuncCall (l : Line)
    (hnl : ∀ c ∈ l, ¬(c = '\n'))
    (hpre : List.isPrefixOf (str "asm(") l = true)
    (hsuf : List.isSuffixOf (str ")") l = true) :
    matchesFuncCall l = true := by
  obtain ⟨t, ht⟩ := List.isPrefixOf_iff_prefix.mp hpre
  rcases List.eq_nil_or_concat t with rfl | ⟨mid, c, hmc⟩
  · rw [← ht] at hsuf
    exact absurd hsuf (by decide)
  · subst hmc
    rw [List.concat_eq_append] at ht
    subst ht
    have hc : c = ')' := by
      obtain ⟨p, hp⟩ := List.isSuffixOf_iff_suffix.mp hsuf
      have h1 : (p ++ [')']).getLast? = some ')' := List.getLast?_concat _
      have h3 : p ++ [')'] = (str "asm(" ++ mid) ++ [c] := by
        rw [List.append_assoc]
        exact hp
      have h2 : ((str "asm(" ++ mid) ++ [c]).getLast? = some c :=
        List.getLast?_concat _
      rw [h3, h2] at h1
      exact Option.some.inj h1
    subst hc
    have hkey : matchesFuncCall (str "asm(" ++ (mid ++ [')'])) =
        (!(str "asm" : List Char).isEmpty && tailMatches (mid ++ [')'])) := rfl
    rw [hkey]
    rw [tailMatches_concat mid (by
      intro c hcm
      refine hnl c ?_
      exact List.mem_append.mpr (Or.inr (List.mem_append.mpr (Or.inl hcm))))]
    rfl

/-- A line classified as inline assembly failed the function-call test
but has the asm envelope. -/
theorem classify_asm_cond (l : Line) (h : classify l = .asmLine) :
    matchesFuncCall l = false ∧
    (List.isPrefixOf (str "asm(") l && List.isSuffixOf (str ")") l) = true := by
  unfold classify at h
  split_ifs at h with h1 h2 h3 h4 h5 h6 h7
  simp only [Bool.not_eq_true] at h6
  exact ⟨h6, h7⟩

/-- A newline-free line is never classified as inline assembly: the
function-call pattern catches every asm envelope first. -/
theorem classify_ne_asm (l : Line) (hnl : ∀ c ∈ l, ¬(c = '\n')) :
    classify l ≠ .asmLine := by
  intro h
  obtain ⟨hcall, henv⟩ := classify_asm_cond l h
  rw [Bool.and_eq_true] at henv
  have := asmEnvelope_matchesFuncCall l hnl henv.1 henv.2
  rw [hcall] at this
  exact Bool.noConfusion this

/-- Shape of a successful import step: only the imports table changes. -/
theorem parse_import_definition_ok (s s' : ParserState) (l : Line)
    (h : parse_import_definition s l = .ok s') :
    ∃ imp, s' = { s with imports := imp } := by
  unfold parse_import_definition at h
  split at h
  · cases h; exact ⟨_, rfl⟩
  · split at h
    · cases h; exact ⟨_, rfl⟩
    · split at h
      · cases h; exact ⟨_, rfl⟩
      · exact Except.noConfusion h

/-- Shape of a successful architecture step. -/
theorem parse_architecture_ok (s s' : ParserState) (l : Line)
    (h : parse_architecture s l = .ok s') :
    ∃ a, s' = { s with architecture := some a } := by
  unfold parse_architecture at h
  split at h
  · cases h; exact ⟨_, rfl⟩
  · exact Except.noConfusion h

/-- Shape of a successful directive step: exactly one of the three
directive slots is set. -/
theorem parse_directive_ok (s s' : ParserState) (l : Line)
    (h : parse_directive s l = .ok s') :
    (∃ v, s' = { s with dir_start := some v }) ∨
    (∃ v, s' = { s with dir_pad := some v }) ∨
    (∃ v, s' = { s with dir_sign := some v }) := by
  unfold parse_directive at h
  split at h
  · cases h; exact Or.inl ⟨_, rfl⟩
  · cases h; exact Or.inr (Or.inl ⟨_, rfl⟩)
  · cases h; exact Or.inr (Or.inr ⟨_, rfl⟩)
  · exact Except.noConfusion h

/-- Shape of a successful function-definition step. -/
theorem parse_function_definition_ok (s s' : ParserState) (l : Line)
    (h : parse_function_definition s l = .ok s') :
    ∃ f, s' = { s with current_function := some f } := by
  unfold parse_function_definition at h
  split at h
  · cases h; exact ⟨_, rfl⟩
  · exact Except.noConfusion h

/-- Shape of a successful inline-assembly step. -/
theorem parse_inline_asm_ok (s s' : ParserState) (l : Line)
    (h : parse_inline_asm s l = .ok s') :
    s' = { s with inline_asm := s.inline_asm ++ [pystrip ((l.drop 4).dropLast)] } := by
  unfold parse_inline_asm at h
  split at h
  · cases h; rfl
  · exact Except.noConfusion h

/-- A successful parse step leaves inline_asm unchanged unless the line
is classified as inline assembly. -/
theorem processLine_inline_eq (s s' : ParserState) (l : Line)
    (hc : classify l ≠ .asmLine) (h : processLine s l = .ok s') :
    s'.inline_asm = s.inline_asm := by
  unfold processLine at h
  split at h
  · obtain ⟨imp, rfl⟩ := parse_import_definition_ok _ _ _ h; rfl
  · obtain ⟨a, rfl⟩ := parse_architecture_ok _ _ _ h; rfl
  · rcases parse_directive_ok _ _ _ h with ⟨v, rfl⟩ | ⟨v, rfl⟩ | ⟨v, rfl⟩ <;> rfl
  · obtain ⟨f, rfl⟩ := parse_function_definition_ok _ _ _ h; rfl
  · cases h
    unfold end_function_definition
    cases hcf : s.current_function <;> simp [hcf]
  · cases h
    unfold parse_function_call
    cases hcf : s.current_function <;> simp [hcf]
  · rename_i heq
    exact absurd heq hc
  · cases h; rfl

/-- Lines not classified as function-start or function-end preserve the
function table and the name and parameters of the open function. -/
theorem processLine_preserves_functions (s s' : ParserState) (l : Line)
    (hf : classify l ≠ .functionLine) (he : classify l ≠ .endLine)
    (h : processLine s l = .ok s') :
    s'.functions = s.functions ∧
    ∀ f, s.current_function = some f →
      ∃ b, s'.current_function = some ⟨f.name, f.params, b⟩ := by
  unfold processLine at h
  split at h
  · obtain ⟨imp, rfl⟩ := parse_import_definition_ok _ _ _ h
    exact ⟨rfl, fun f hf2 => ⟨f.body, by rw [show ({ s with imports := imp } :
      ParserState).current_function = s.current_function from rfl, hf2]⟩⟩
  · obtain ⟨a, rfl⟩ := parse_architecture_ok _ _ _ h
    exact ⟨rfl, fun f hf2 => ⟨f.body, by rw [show ({ s with architecture := some a } :
      ParserState).current_function = s.current_function from rfl, hf2]⟩⟩
  · rcases parse_directive_ok _ _ _ h with ⟨v, rfl⟩ | ⟨v, rfl⟩ | ⟨v, rfl⟩ <;>
      exact ⟨rfl, fun f hf2 => ⟨f.body, by
        rw [show s.current_function = some f from hf2]⟩⟩
  · rename_i heq
    exact absurd heq hf
  · rename_i heq
    exact absurd heq he
  · cases h
    unfold parse_function_call
    cases hcf : s.current_function with
    | none =>
      refine ⟨rfl, fun f hf2 => ?_⟩
      exact Option.noConfusion hf2
    | some f0 =>
      refine ⟨rfl, fun f hf2 => ?_⟩
      cases Option.some.inj hf2
      exact ⟨f0.body ++ [pystrip l], rfl⟩
  · have := parse_inline_asm_ok _ _ _ h
    subst this
    refine ⟨rfl, fun f hf2 => ⟨f.body, ?_⟩⟩
    show s.current_function = some ⟨f.name, f.params, f.body⟩
    rw [hf2]
  · cases h
    refine ⟨rfl, fun f hf2 => ⟨f.body, ?_⟩⟩
    show s.current_function = some ⟨f.name, f.params, f.body⟩
    rw [hf2]

/-- Over any list of newline-free lines, a successful parse run leaves
inline_asm unchanged. -/
theorem parseLines_inline_eq :
    ∀ (ls : List Line) (s s' : ParserState),
      (∀ l ∈ ls, ∀ c ∈ l, ¬(c = '\n')) →
      parseLines s ls = .ok s' → s'.inline_asm = s.inline_asm := by
  intro ls
  induction ls with
  | nil =>
    intro s s' _ h
    cases h
    rfl
  | cons l t ih =>
    intro s s' hnl h
    rw [parseLines] at h
    by_cases hb : pystrip l = []
    · rw [if_pos hb] at h
      exact ih s s' (fun l2 hl2 => hnl l2 (List.mem_cons_of_mem _ hl2)) h
    · rw [if_neg hb] at h
      cases hp : processLine s (pystrip l) with
      | error e =>
        rw [hp] at h
        exact Except.noConfusion h
      | ok s2 =>
        rw [hp] at h
        have hnl2 : ∀ c ∈ pystrip l, ¬(c = '\n') := fun c hc =>
          hnl l (List.mem_cons_self _ _) c (mem_of_mem_pystrip hc)
        have h1 := processLine_inline_eq s s2 (pystrip l) (classify_ne_asm _ hnl2) hp
        have h2 := ih s2 s' (fun l2 hl2 => hnl l2 (List.mem_cons_of_mem _ hl2)) h
        rw [h2, h1]

/-- C1: the spec states that a well-formed local-import line binds the
alias to module.function in the imports table.  The dispatch in parse
only sends lines starting with the word import to
_parse_import_definition, so a local-import line (starting with local)
is classified as a free statement: parsing it leaves imports empty and
stores the raw line in code_outside_functions.  The second conjunct
shows the local-import branch of _parse_import_definition itself would
perform the claimed binding, but it is unreachable from parse. -/
theorem c1_local_import_dead :
    parseLines initState [str "local x = import f from m"] =
      .ok { initState with
              code_outside_functions := [str "local x = import f from m"] } ∧
    parse_import_definition initState (str "local x = import f from m") =
      .ok { initState with imports := [(str "x", str "m.f")] } :=
  ⟨rfl, rfl⟩

/-- C2 counterexample: after the line function f() a function is open,
yet the following non-blank line mov eax, 1 still lands in
code_outside_functions, contradicting the claim that a line seen while
a function is open never does. -/
theorem c2_counterexample :
    (parseLines initState [str "function f()"]).map
        (fun s => (s.current_function.isSome, s.code_outside_functions)) =
      .ok (true, []) ∧
    (parseLines initState [str "function f()", str "mov eax, 1"]).map
        (fun s => (s.current_function.isSome, s.code_outside_functions)) =
      .ok (true, [str "mov eax, 1"]) :=
  ⟨rfl, rfl⟩

/-- C2 (amended): a successful parse step appends the stripped line to
code_outside_functions exactly when the line is classified as a free
statement (regardless of any open function) or as a call with no
function open; every other step leaves code_outside_functions
unchanged.  So free_statements collects free-statement lines even while
a function definition is open. -/
theorem c2_free_statement_routing (s s' : ParserState) (l : Line)
    (h : processLine s l = .ok s') :
    (classify l = .execLine →
      s'.code_outside_functions = s.code_outside_functions ++ [pystrip l]) ∧
    (classify l = .callLine → s.current_function = none →
      s'.code_outside_functions = s.code_outside_functions ++ [pystrip l]) ∧
    (classify l = .callLine → s.current_function ≠ none →
      s'.code_outside_functions = s.code_outside_functions) ∧
    (classify l ≠ .callLine → classify l ≠ .execLine →
      s'.code_outside_functions = s.code_outside_functions) := by
  unfold processLine at h
  split at h <;> rename_i heq
  · obtain ⟨imp, rfl⟩ := parse_import_definition_ok _ _ _ h
    exact ⟨fun hx => absurd (heq.symm.trans hx) (by decide),
           fun hx _ => absurd (heq.symm.trans hx) (by decide),
           fun hx _ => absurd (heq.symm.trans hx) (by decide),
           fun _ _ => rfl⟩
  · obtain ⟨a, rfl⟩ := parse_architecture_ok _ _ _ h
    exact ⟨fun hx => absurd (heq.symm.trans hx) (by decide),
           fun hx _ => absurd (heq.symm.trans hx) (by decide),
           fun hx _ => absurd (heq.symm.trans hx) (by decide),
           fun _ _ => rfl⟩
  · rcases parse_directive_ok _ _ _ h with ⟨v, rfl⟩ | ⟨v, rfl⟩ | ⟨v, rfl⟩ <;>
      exact ⟨fun hx => absurd (heq.symm.trans hx) (by decide),
             fun hx _ => absurd (heq.symm.trans hx) (by decide),
             fun hx _ => absurd (heq.symm.trans hx) (by decide),
             fun _ _ => rfl⟩
  · obtain ⟨f, rfl⟩ := parse_function_definition_ok _ _ _ h
    exact ⟨fun hx => absurd (heq.symm.trans hx) (by decide),
           fun hx _ => absurd (heq.symm.trans hx) (by decide),
           fun hx _ => absurd (heq.symm.trans hx) (by decide),
           fun _ _ => rfl⟩
  · cases h
    have hcode : (end_function_definition s).code_outside_functions =
        s.code_outside_functions := by
      unfold end_function_definition
      cases s.current_function <;> rfl
    exact ⟨fun hx => absurd (heq.symm.trans hx) (by decide),
           fun hx _ => absurd (heq.symm.trans hx) (by decide),
           fun hx _ => absurd (heq.symm.trans hx) (by decide),
           fun _ _ => hcode⟩
  · cases h
    refine ⟨fun hx => absurd (heq.symm.trans hx) (by decide),
            fun _ hnone => ?_, fun _ hsome => ?_,
            fun hx _ => absurd heq hx⟩
    · unfold parse_function_call
      rw [hnone]
    · unfold parse_function_call
      cases hcf : s.current_function with
      | none => exact absurd hcf hsome
      | some f0 => rfl
  · have := parse_inline_asm_ok _ _ _ h
    subst this
    exact ⟨fun hx => absurd (heq.symm.trans hx) (by decide),
           fun hx _ => absurd (heq.symm.trans hx) (by decide),
           fun hx _ => absurd (heq.symm.trans hx) (by decide),
           fun _ _ => rfl⟩
  · cases h
    exact ⟨fun _ => rfl,
           fun hx _ => absurd (heq.symm.trans hx) (by decide),
           fun hx _ => absurd (heq.symm.trans hx) (by decide),
           fun _ hx => absurd heq hx⟩

/-- C2 witness: the routing theorem applied to a state with an open
function and the free-statement line mov eax, 1. -/
theorem c2_free_statement_routing_witness :
    ({ initState with
        current_function := some ⟨str "f", [], []⟩
        code_outside_functions := [str "mov eax, 1"] } :
      ParserState).code_outside_functions =
      ([] : List Line) ++ [pystrip (str "mov eax, 1")] :=
  (c2_free_statement_routing
    { initState with current_function := some ⟨str "f", [], []⟩ }
    { initState with
      current_function := some ⟨str "f", [], []⟩
      code_outside_functions := [str "mov eax, 1"] }
    (str "mov eax, 1") rfl).1 rfl

/-- C3 counterexample: parsing the single line asm(nop) leaves
inline_asm_blocks empty and records the line as a call in
code_outside_functions; the claim would require inline_asm to hold the
stripped fragment nop. -/
theorem c3_counterexample :
    (parseLines initState [str "asm(nop)"]).map (fun s => s.inline_asm) =
      .ok [] ∧
    (parseLines initState [str "asm(nop)"]).map (fun s => s.inline_asm) ≠
      .ok [str "nop"] ∧
    (parseLines initState [str "asm(nop)"]).map
        (fun s => s.code_outside_functions) = .ok [str "asm(nop)"] := by
  refine ⟨rfl, fun hx => ?_, rfl⟩
  rw [show (parseLines initState [str "asm(nop)"]).map (fun s => s.inline_asm) =
      (.ok [] : Except SynErr (List Line)) from rfl] at hx
  exact List.noConfusion (Except.ok.inj hx)

/-- C3 (amended): the inline-assembly rule _parse_inline_asm, when
invoked on a line that begins with asm( and ends with ), strips that
envelope, trims the remainder and appends the fragment to
inline_asm_blocks; the parser itself, however, never invokes the rule
on such a line, because the function-call pattern matches it first. -/
theorem c3_inline_rule (s : ParserState) (l : Line)
    (hpre : List.isPrefixOf (str "asm(") l = true)
    (hsuf : List.isSuffixOf (str ")") l = true) :
    parse_inline_asm s l =
      .ok { s with inline_asm := s.inline_asm ++ [pystrip ((l.drop 4).dropLast)] } := by
  unfold parse_inline_asm
  rw [hpre, hsuf]
  rfl

/-- C3 witness: the inline-assembly rule applied to a concrete
envelope line. -/
theorem c3_inline_rule_witness :
    parse_inline_asm initState (str "asm( mov eax, 1 )") =
      .ok { initState with inline_asm := [str "mov eax, 1"] } := by
  rw [c3_inline_rule initState (str "asm( mov eax, 1 )") (by decide) (by decide)]
  rfl

/-- C4: a completed parse always yields an empty inline_asm list, because
every newline-free line with the asm envelope already matches the
higher-precedence function-call pattern, making the inline-assembly
branch of the classifier unreachable. -/
theorem c4_inline_asm_empty :
    (∀ (code : Line) (s : ParserState), parse code = .ok s → s.inline_asm = []) ∧
    (∀ l : Line, (∀ c ∈ l, ¬(c = '\n')) →
      List.isPrefixOf (str "asm(") l = true →
      List.isSuffixOf (str ")") l = true →
      matchesFuncCall l = true) := by
  constructor
  · intro code s h
    have hnl : ∀ l ∈ splitlinesPy (pystrip code), ∀ c ∈ l, ¬(c = '\n') :=
      splitlinesPy_no_newline _
    exact (parseLines_inline_eq _ _ _ hnl h).trans rfl
  · exact asmEnvelope_matchesFuncCall

/-- C4 witness: the invariant evaluated on the source asm(nop), together
with the shadowing fact at that concrete line. -/
theorem c4_inline_asm_empty_witness :
    (∃ s, parse (str "asm(nop)") = Except.ok s ∧ s.inline_asm = []) ∧
    matchesFuncCall (str "asm(nop)") = true := by
  constructor
  · exact ⟨{ initState with code_outside_functions := [str "asm(nop)"] }, rfl,
      c4_inline_asm_empty.1 (str "asm(nop)") _ rfl⟩
  · exact c4_inline_asm_empty.2 (str "asm(nop)") (by decide) (by decide) (by decide)

/-- Any line list containing the malformed directive makes the parse
loop abort with a SyntaxError, from any starting state. -/
theorem parseLines_bad_directive :
    ∀ (ls : List Line) (s : ParserState),
      (str "#![foo(1)]") ∈ ls → ∃ e, parseLines s ls = .error e := by
  intro ls
  induction ls with
  | nil =>
    intro s h
    simp at h
  | cons l t ih =>
    intro s hmem
    by_cases hl : l = str "#![foo(1)]"
    · subst hl
      exact ⟨SynErr.invalidDirective (str "#![foo(1)]"), rfl⟩
    · rcases List.mem_cons.mp hmem with h1 | h2
      · exact absurd h1.symm hl
      · by_cases hb : pystrip l = []
        · obtain ⟨e, he⟩ := ih s h2
          exact ⟨e, by rw [parseLines, if_pos hb]; exact he⟩
        · cases hp : processLine s (pystrip l) with
          | error e0 => exact ⟨e0, by rw [parseLines, if_neg hb, hp]⟩
          | ok s2 =>
            obtain ⟨e, he⟩ := ih s2 h2
            exact ⟨e, by rw [parseLines, if_neg hb, hp]; exact he⟩

/-- C9: a source whose lines contain the malformed directive line
aborts at parse time with a SyntaxError (the directive pattern admits
only the names start, pad and sign), so the generator never runs and no
output text is produced by the parse-then-generate pipeline. -/
theorem c9_bad_directive_aborts (ls : List Line)
    (h : (str "#![foo(1)]") ∈ ls) :
    ∃ e, parseLines initState ls = .error e ∧
      (parseLines initState ls).bind generate_code = .error e := by
  obtain ⟨e, he⟩ := parseLines_bad_directive ls initState h
  exact ⟨e, he, by rw [he]; rfl⟩

/-- C9 witness: the abort theorem at the one-line source holding only
the malformed directive. -/
theorem c9_bad_directive_witness :
    ∃ e, parseLines initState [str "#![foo(1)]"] = .error e ∧
      (parseLines initState [str "#![foo(1)]"]).bind generate_code = .error e :=
  c9_bad_directive_aborts [str "#![foo(1)]"] (by decide)

/-- C5: when the model's inline_asm list is nonempty and its entries do
not themselves carry the asm envelope, generate_code re-invokes the
inline-assembly rule on the first already-stripped fragment, which
raises its SyntaxError; no output text is returned. -/
theorem c5_generation_fails (s : ParserState) (a : Line) (rest : List Line)
    (h1 : s.inline_asm = a :: rest)
    (h2 : ∀ x ∈ s.inline_asm,
      ¬(List.isPrefixOf (str "asm(") x = true ∧
        List.isSuffixOf (str ")") x = true)) :
    generate_code s = .error (.invalidAsm a) := by
  have henv : ¬((List.isPrefixOf (str "asm(") a &&
      List.isSuffixOf (str ")") a) = true) := by
    intro hx
    rw [Bool.and_eq_true] at hx
    exact h2 a (h1 ▸ List.mem_cons_self _ _) hx
  have hloop : asmLoop (a :: rest) = .error (.invalidAsm a) := by
    rw [asmLoop]
    rw [dif_neg henv]
  unfold generate_code
  rw [h1, hloop]

/-- C5 witness: generation fails on the model holding the single
stripped fragment nop. -/
theorem c5_generation_fails_witness :
    generate_code { initState with inline_asm := [str "nop"] } =
      .error (.invalidAsm (str "nop")) :=
  c5_generation_fails _ (str "nop") [] rfl (by decide)

/-- C6: the function section of the output emits, for each entry of the
functions table in insertion order, the stored record's name as a label
followed by the same fixed four instruction lines; the entries'
parameters and bodies have no effect on the emitted text (the section
depends only on the names), and the section sits between the
scaffold/free-statement part and the trailers of baseOutput. -/
theorem c6_fixed_function_bodies :
    (∀ fs : List (Line × FunctionDef),
      funcSection fs = fs.flatMap (fun p =>
        [p.2.name ++ str ":", str "  mov eax, [esp + 4]",
         str "  add eax, [esp + 8]", str "  add eax, [esp + 12]",
         str "  ret"])) ∧
    (∀ fs fs' : List (Line × FunctionDef),
      fs.map (fun p => p.2.name) = fs'.map (fun p => p.2.name) →
      funcSection fs = funcSection fs') ∧
    (∀ s : ParserState, baseOutput s =
      (bitsHeader s ++ orgLines s ++ entryScaffold ++ freeSection s) ++
        funcSection s.functions ++ (padLines s ++ signLines s)) := by
  refine ⟨?_, ?_, ?_⟩
  · intro fs
    induction fs with
    | nil => rfl
    | cons p rest ih => simp [funcSection, ih]
  · intro fs
    induction fs with
    | nil =>
      intro fs' h
      cases fs' with
      | nil => rfl
      | cons q r => simp at h
    | cons p rest ih =>
      intro fs' h
      cases fs' with
      | nil => simp at h
      | cons q r =>
        simp only [List.map_cons, List.cons.injEq] at h
        have h2 := ih r h.2
        simp [funcSection, h.1, h2]
  · intro s
    simp [baseOutput, List.append_assoc]

/-- C6 witness: two function tables with the same name and different
recorded parameters and bodies produce the same section, of the fixed
shape. -/
theorem c6_fixed_function_bodies_witness :
    funcSection [(str "f", FunctionDef.mk (str "f") [str "a"] [str "x(1)"])] =
      funcSection [(str "f", FunctionDef.mk (str "f") [] [])] :=
  c6_fixed_function_bodies.2.1 _ _ rfl

/-- C7: the bit-width header is chosen case-insensitively from the
architecture tag: x86 gives BITS 32, x64 gives BITS 64, x16 gives
BITS 16, any other nonempty tag gives BITS 32; an unset architecture
emits no bit-width line; and the header is the first part of the
output lines. -/
theorem c7_bits_header :
    (∀ s : ParserState, s.architecture = none → bitsHeader s = []) ∧
    (∀ (s : ParserState) (a : Line), s.architecture = some a →
      lowerPy a = str "x86" → bitsHeader s = [str "BITS 32"]) ∧
    (∀ (s : ParserState) (a : Line), s.architecture = some a →
      lowerPy a = str "x64" → bitsHeader s = [str "BITS 64"]) ∧
    (∀ (s : ParserState) (a : Line), s.architecture = some a →
      lowerPy a = str "x16" → bitsHeader s = [str "BITS 16"]) ∧
    (∀ (s : ParserState) (a : Line), s.architecture = some a → a ≠ [] →
      lowerPy a ≠ str "x86" → lowerPy a ≠ str "x64" → lowerPy a ≠ str "x16" →
      bitsHeader s = [str "BITS 32"]) ∧
    (∀ s : ParserState, ∃ rest, baseOutput s = bitsHeader s ++ rest) := by
  refine ⟨?_, ?_, ?_, ?_, ?_, ?_⟩
  · intro s harch
    unfold bitsHeader
    rw [harch]
  · intro s a harch hlow
    have hne : a ≠ [] := fun h0 => absurd (h0 ▸ hlow) (by decide)
    unfold bitsHeader
    rw [harch]
    show (if a = [] then ([] : List Line) else [bitsLine a]) = [str "BITS 32"]
    rw [if_neg hne]
    unfold bitsLine
    rw [hlow]
    decide
  · intro s a harch hlow
    have hne : a ≠ [] := fun h0 => absurd (h0 ▸ hlow) (by decide)
    unfold bitsHeader
    rw [harch]
    show (if a = [] then ([] : List Line) else [bitsLine a]) = [str "BITS 64"]
    rw [if_neg hne]
    unfold bitsLine
    rw [hlow]
    decide
  · intro s a harch hlow
    have hne : a ≠ [] := fun h0 => absurd (h0 ▸ hlow) (by decide)
    unfold bitsHeader
    rw [harch]
    show (if a = [] then ([] : List Line) else [bitsLine a]) = [str "BITS 16"]
    rw [if_neg hne]
    unfold bitsLine
    rw [hlow]
    decide
  · intro s a harch hne h86 h64 h16
    unfold bitsHeader
    rw [harch]
    show (if a = [] then ([] : List Line) else [bitsLine a]) = [str "BITS 32"]
    rw [if_neg hne]
    unfold bitsLine
    rw [if_neg h86, if_neg h64, if_neg h16]
  · intro s
    exact ⟨orgLines s ++ entryScaffold ++ freeSection s ++
      funcSection s.functions ++ padLines s ++ signLines s,
      by simp [baseOutput, List.append_assoc]⟩

/-- C7 witness: the header rules at the uppercase tag X64 and at the
unset architecture. -/
theorem c7_bits_header_witness :
    bitsHeader { initState with architecture := some (str "X64") } =
      [str "BITS 64"] ∧
    bitsHeader initState = [] :=
  ⟨c7_bits_header.2.2.1 _ (str "X64") rfl (by decide),
   c7_bits_header.1 initState rfl⟩

/-- Body loop for the function-definition scenario: once function f with
parameters a, b is open and the table is empty, lines that are neither
function-start nor end lines preserve that, and the closing end moves
exactly one entry keyed f into the table. -/
theorem c8_body_loop :
    ∀ (mid : List Line) (s sF : ParserState) (b0 : List Line),
      s.functions = [] →
      s.current_function = some ⟨str "f", [str "a", str "b"], b0⟩ →
      (∀ l ∈ mid, classify (pystrip l) ≠ .functionLine ∧
        classify (pystrip l) ≠ .endLine) →
      parseLines s (mid ++ [str "end"]) = .ok sF →
      ∃ b, sF.functions = [(str "f", FunctionDef.mk (str "f") [str "a", str "b"] b)] := by
  intro mid
  induction mid with
  | nil =>
    intro s sF b0 hfun hcur _ h
    rw [List.nil_append, parseLines,
      if_neg (by decide : ¬pystrip (str "end") = [])] at h
    have hpe : processLine s (pystrip (str "end")) =
        .ok (end_function_definition s) := rfl
    rw [hpe] at h
    have h2 : end_function_definition s = sF := Except.ok.inj h
    refine ⟨b0, ?_⟩
    rw [← h2]
    unfold end_function_definition
    rw [hcur]
    show assocSet s.functions (str "f")
      (FunctionDef.mk (str "f") [str "a", str "b"] b0) =
      [(str "f", FunctionDef.mk (str "f") [str "a", str "b"] b0)]
    rw [hfun]
    rfl
  | cons l mid ih =>
    intro s sF b0 hfun hcur hmid h
    rw [List.cons_append, parseLines] at h
    by_cases hb : pystrip l = []
    · rw [if_pos hb] at h
      exact ih s sF b0 hfun hcur
        (fun x hx => hmid x (List.mem_cons_of_mem _ hx)) h
    · rw [if_neg hb] at h
      cases hp : processLine s (pystrip l) with
      | error e =>
        rw [hp] at h
        exact Except.noConfusion h
      | ok s2 =>
        rw [hp] at h
        obtain ⟨hfun2, hcur2⟩ := processLine_preserves_functions s s2 (pystrip l)
          (hmid l (List.mem_cons_self _ _)).1 (hmid l (List.mem_cons_self _ _)).2 hp
        obtain ⟨b1, hcur3⟩ := hcur2 _ hcur
        exact ih s2 sF b1 (hfun2.trans hfun) hcur3
          (fun x hx => hmid x (List.mem_cons_of_mem _ hx)) h

/-- C8: a function f(a, b) line followed (after lines that are neither
function-start nor end lines) by a matching end produces exactly one
functions entry, keyed f, with parameter list [a, b]; and an empty
parenthesis list, as in function g(), yields zero parameters. -/
theorem c8_function_table (mid : List Line) (sF : ParserState)
    (hmid : ∀ l ∈ mid, classify (pystrip l) ≠ .functionLine ∧
      classify (pystrip l) ≠ .endLine)
    (h : parseLines initState
      (str "function f(a, b)" :: (mid ++ [str "end"])) = .ok sF) :
    (∃ b, sF.functions =
      [(str "f", FunctionDef.mk (str "f") [str "a", str "b"] b)]) ∧
    parseLines initState [str "function g()", str "end"] =
      .ok { initState with
              functions := [(str "g", FunctionDef.mk (str "g") [] [])] } := by
  constructor
  · rw [parseLines,
      if_neg (by decide : ¬pystrip (str "function f(a, b)") = [])] at h
    have hp1 : processLine initState (pystrip (str "function f(a, b)")) =
        .ok { initState with
                current_function :=
                  some (FunctionDef.mk (str "f") [str "a", str "b"] []) } := rfl
    rw [hp1] at h
    exact c8_body_loop mid _ sF [] rfl rfl hmid h
  · rfl

/-- C8 witness: the scenario with no intervening lines, evaluated
concretely. -/
theorem c8_function_table_witness :
    ∃ b, ({ initState with
        functions := [(str "f", FunctionDef.mk (str "f") [str "a", str "b"] [])],
        current_function := none } : ParserState).functions =
      [(str "f", FunctionDef.mk (str "f") [str "a", str "b"] b)] :=
  (c8_function_table [] _ (by simp) rfl).1

/-- C10: the detailed directive and import patterns are not anchored at
the end of the line, so a well-formed directive or import prefix
followed by arbitrary trailing text parses without error and stores
exactly the values captured from the prefix. -/
theorem c10_trailing_junk (s : ParserState) (junk : Line) :
    processLine s (str "#![pad(5)]" ++ junk) =
      .ok { s with dir_pad := some (str "5") } ∧
    processLine s (str "import f from m " ++ junk) =
      .ok { s with imports := assocSet s.imports (str "f") (str "m") } :=
  ⟨rfl, rfl⟩
